import Mathlib

/-!
Verification of the NTRTsim structure-building subsystem (tgcreator):
the node/pair structure graph, the tag-driven builder dispatch, the
structure-info compiler and the compiled model tree with tagged lookup,
plus the Quadruped actuator map and the NestedStructureSineWaves
controller from the repository sources.

Coordinates are modelled as rationals; the rotation matrix that the
physics library computes from an (axis, angle) pair is abstracted as an
arbitrary 3x3 matrix parameter.
-/

namespace NTRT

/-- A 3-dimensional point/vector (models btVector3 with rational coordinates). -/
structure Vec3 where
  x : ℚ
  y : ℚ
  z : ℚ
deriving DecidableEq

instance : Add Vec3 := ⟨fun a b => ⟨a.x + b.x, a.y + b.y, a.z + b.z⟩⟩

instance : Sub Vec3 := ⟨fun a b => ⟨a.x - b.x, a.y - b.y, a.z - b.z⟩⟩

instance : Inhabited Vec3 := ⟨⟨0, 0, 0⟩⟩

/-- A 3x3 matrix, used as the abstract linear part of a rotation. -/
structure Mat3 where
  r00 : ℚ
  r01 : ℚ
  r02 : ℚ
  r10 : ℚ
  r11 : ℚ
  r12 : ℚ
  r20 : ℚ
  r21 : ℚ
  r22 : ℚ
deriving DecidableEq

/-- Matrix-vector product. -/
def Mat3.mulVec (m : Mat3) (v : Vec3) : Vec3 :=
  ⟨m.r00 * v.x + m.r01 * v.y + m.r02 * v.z,
   m.r10 * v.x + m.r11 * v.y + m.r12 * v.z,
   m.r20 * v.x + m.r21 * v.y + m.r22 * v.z⟩

/-- Rotation about a fixed point: translate the point to the origin, apply the
linear map, translate back. -/
def rotAboutPoint (center : Vec3) (r : Mat3) (p : Vec3) : Vec3 :=
  center + r.mulVec (p - center)

/-- Tokenizer helper: splits a list of characters on spaces, accumulating the
current (reversed) token in `cur`. -/
def tokenizeAux (cur : List Char) : List Char → List String
  | [] => if cur = [] then [] else [String.mk cur.reverse]
  | c :: rest =>
    if c = ' ' then
      if cur = [] then tokenizeAux [] rest
      else String.mk cur.reverse :: tokenizeAux [] rest
    else tokenizeAux (c :: cur) rest

/-- Modelled from the spec: tag-string parsing (the tgTags constructor from a
string, not under src/): a tag string is a list of space-delimited ASCII
tokens. -/
def parseTags (s : String) : List String := tokenizeAux [] s.toList

/-- Modelled from the spec: a Pair (class tgPair, not under src/) is an ordered
pair of node indices plus a set of string tags. -/
structure tgPair where
  fst : ℕ
  snd : ℕ
  tags : List String
deriving DecidableEq

/-- Modelled from the spec: a Structure (class tgStructure, not under src/)
owns a sequence of nodes (3D points identified by insertion index), a sequence
of pairs, a sequence of owned child structures, and its own tag set. -/
inductive tgStructure where
  | mk (nodes : List Vec3) (pairs : List tgPair) (children : List tgStructure)
       (tags : List String)

/-- The structure's own nodes. -/
def tgStructure.nodes : tgStructure → List Vec3
  | .mk ns _ _ _ => ns

/-- The structure's own pairs. -/
def tgStructure.pairs : tgStructure → List tgPair
  | .mk _ ps _ _ => ps

/-- The structure's child structures. -/
def tgStructure.children : tgStructure → List tgStructure
  | .mk _ _ cs _ => cs

/-- The structure's own tags. -/
def tgStructure.tags : tgStructure → List String
  | .mk _ _ _ ts => ts

/-- Modelled from the spec: tgStructure::addNode appends a node and assigns it
the next insertion index. -/
def tgStructure.addNode (s : tgStructure) (p : Vec3) : tgStructure :=
  .mk (s.nodes ++ [p]) s.pairs s.children s.tags

/-- Modelled from the spec: tgStructure::addPair(i, j, tagString) validates
that i and j are in range and distinct, parses the tag string into
space-delimited tags, and stores the pair; malformed indices are a
configuration error. -/
def tgStructure.addPair (s : tgStructure) (i j : ℕ) (tagString : String) :
    Except String tgStructure :=
  if i = j then .error "ConfigurationError: pair endpoints coincide"
  else if i < s.nodes.length ∧ j < s.nodes.length then
    .ok (.mk s.nodes (s.pairs ++ [⟨i, j, parseTags tagString⟩]) s.children s.tags)
  else .error "ConfigurationError: pair node index out of range"

/-- Modelled from the spec: tgStructure::addChild transfers ownership of a
pre-built substructure into this structure as a child. -/
def tgStructure.addChild (s : tgStructure) (c : tgStructure) : tgStructure :=
  .mk s.nodes s.pairs (s.children ++ [c]) s.tags

/-- Modelled from the spec: tgStructure::addTags extends the structure's own
tag set with the parsed tokens of the given string. -/
def tgStructure.addTags (s : tgStructure) (t : String) : tgStructure :=
  .mk s.nodes s.pairs s.children (s.tags ++ parseTags t)

mutual

/-- Modelled from the spec: the recursive transform application shared by
tgStructure::move and tgStructure::addRotation — apply a point map to every
node of this structure and, recursively, of all descendants, leaving pairs,
tags and the child tree untouched. -/
def tgStructure.applyTransform (f : Vec3 → Vec3) : tgStructure → tgStructure
  | .mk ns ps cs ts => .mk (ns.map f) ps (applyTransformList f cs) ts

/-- Transform application over a list of child structures. -/
def applyTransformList (f : Vec3 → Vec3) : List tgStructure → List tgStructure
  | [] => []
  | c :: rest => c.applyTransform f :: applyTransformList f rest

end

/-- Modelled from the spec: tgStructure::move(vector) translates every node
transitively reachable by the given offset. -/
def tgStructure.move (s : tgStructure) (v : Vec3) : tgStructure :=
  s.applyTransform (fun p => p + v)

/-- Modelled from the spec: tgStructure::addRotation(fixedPoint, axis, angle)
rotates every node transitively reachable about the fixed point; the rotation
matrix computed by the physics library from (axis, angle) is abstracted as the
matrix argument. -/
def tgStructure.addRotation (s : tgStructure) (center : Vec3) (r : Mat3) :
    tgStructure :=
  s.applyTransform (rotAboutPoint center r)

mutual

/-- All nodes of a structure in preorder: own nodes, then each child's nodes
recursively. -/
def tgStructure.allNodes : tgStructure → List Vec3
  | .mk ns _ cs _ => ns ++ allNodesList cs

/-- All nodes of a list of structures. -/
def allNodesList : List tgStructure → List Vec3
  | [] => []
  | c :: rest => c.allNodes ++ allNodesList rest

end

mutual

/-- All pairs of a structure and its descendants, children first (matching the
compiler's traversal, which compiles child structures before own pairs). -/
def tgStructure.allPairs : tgStructure → List tgPair
  | .mk _ ps cs _ => allPairsList cs ++ ps

/-- All pairs of a list of structures. -/
def allPairsList : List tgStructure → List tgPair
  | [] => []
  | c :: rest => c.allPairs ++ allPairsList rest

end

/-- The node-free skeleton of a structure: everything except node coordinates
(node count, pairs, tags, and recursively the children's skeletons). -/
inductive Skel where
  | mk (numNodes : ℕ) (pairs : List tgPair) (childSkels : List Skel)
       (tags : List String)

mutual

/-- Compute the skeleton of a structure. -/
def tgStructure.skeleton : tgStructure → Skel
  | .mk ns ps cs ts => .mk ns.length ps (skeletonList cs) ts

/-- Skeletons of a list of structures. -/
def skeletonList : List tgStructure → List Skel
  | [] => []
  | c :: rest => c.skeleton :: skeletonList rest

end

mutual

/-- Well-formedness of pairs: every pair of the structure references node
indices that exist in the same structure, recursively. -/
def tgStructure.pairsWF : tgStructure → Bool
  | .mk ns ps cs _ =>
    ps.all (fun p => decide (p.fst < ns.length) && decide (p.snd < ns.length))
      && pairsWFList cs

/-- Pair well-formedness over a list of structures. -/
def pairsWFList : List tgStructure → Bool
  | [] => true
  | c :: rest => c.pairsWF && pairsWFList rest

end

mutual

/-- Non-degeneracy of pairs: no pair of the structure references two nodes
with coinciding positions (such a pair would be rejected by its builder as a
zero-length geometry error), recursively. -/
def tgStructure.nonDegenerate : tgStructure → Bool
  | .mk ns ps cs _ =>
    ps.all (fun p => decide (ns.getD p.fst default ≠ ns.getD p.snd default))
      && nonDegenerateList cs

/-- Pair non-degeneracy over a list of structures. -/
def nonDegenerateList : List tgStructure → Bool
  | [] => true
  | c :: rest => c.nonDegenerate && nonDegenerateList rest

end

/-- Strong induction over the structure tree: to prove a property of every
structure it suffices to prove it for `mk` assuming it for every child. -/
def tgStructure.strongInd {P : tgStructure → Prop}
    (h : ∀ ns ps cs ts, (∀ c ∈ cs, P c) → P (.mk ns ps cs ts)) :
    ∀ s, P s
  | .mk ns ps cs ts =>
    h ns ps cs ts (fun c hc => tgStructure.strongInd h c)
termination_by s => sizeOf s
decreasing_by
  have h1 : sizeOf c < sizeOf cs := List.sizeOf_lt_of_mem hc
  simp only [tgStructure.mk.sizeOf_spec]
  omega

/-- Modelled from the spec: the Build Spec (class tgBuildSpec, not under
src/) is a registry mapping tag strings to builder factories; a builder is
identified here by the kind of model it produces (rod, basic actuator, ...). -/
structure tgBuildSpec where
  builders : List (String × String)

/-- Modelled from the spec: tgBuildSpec::addBuilder registers a factory for a
tag (appended to the registry; lookups take the first registration). -/
def tgBuildSpec.addBuilder (bs : tgBuildSpec) (tag kind : String) : tgBuildSpec :=
  ⟨bs.builders ++ [(tag, kind)]⟩

/-- Look up the builder registered for a single tag. -/
def tgBuildSpec.lookupTag (bs : tgBuildSpec) (tag : String) : Option String :=
  bs.builders.lookup tag

/-- Modelled from the spec: tag resolution during compilation — iterate the
pair's tags in declaration order and pick the first tag with a registered
builder (first-match policy). -/
def tgBuildSpec.resolve (bs : tgBuildSpec) (tags : List String) : Option String :=
  tags.findSome? bs.lookupTag

/-- Modelled from the spec: a compiled model node (class tgModel and its
subclasses, not under src/) is either a leaf wrapping one physical object
(with the kind of builder that produced it, its tags and its two world-space
endpoints) or a composite with children. -/
inductive tgModel where
  | leaf (kind : String) (tags : List String) (ep1 ep2 : Vec3)
  | comp (tags : List String) (children : List tgModel)

/-- Compile-time errors: configuration errors — unregistered tag, malformed
pair indices (spec section 7, taxonomy item (a)) — and the geometry error a
builder raises for a degenerate zero-length pair (item (b)). -/
inductive BuildError where
  | unregisteredTag (tags : List String)
  | badPairIndex (i j : ℕ)
  | degeneratePair (i j : ℕ)
deriving DecidableEq

/-- Modelled from the spec: compile the pairs of one structure against the
build spec — resolve each pair's tags to a builder (error if none is
registered), look up the two endpoint node positions (error if an index is
out of range), reject a degenerate pair whose two endpoints coincide (the
builder's zero-length hard failure, spec sections 4.3 and 7(b)), and produce
one leaf model per pair, in declaration order. -/
def compilePairs (bs : tgBuildSpec) (ns : List Vec3) :
    List tgPair → Except BuildError (List tgModel)
  | [] => .ok []
  | p :: rest =>
    match bs.resolve p.tags with
    | none => .error (.unregisteredTag p.tags)
    | some kind =>
      match ns[p.fst]?, ns[p.snd]? with
      | some a, some b =>
        if a = b then .error (.degeneratePair p.fst p.snd)
        else
          match compilePairs bs ns rest with
          | .error e => .error e
          | .ok ms => .ok (tgModel.leaf kind p.tags a b :: ms)
      | _, _ => .error (.badPairIndex p.fst p.snd)

mutual

/-- Modelled from the spec: the Structure Info Compiler
(tgStructureInfo::createStructure / buildInto, not under src/) — recursively
compile each child structure into a sub-model (depth-first), compile this
structure's own pairs, and collect everything under a composite tagged with
the structure's own tags. Any error aborts the whole build. -/
def compile (bs : tgBuildSpec) : tgStructure → Except BuildError tgModel
  | .mk ns ps cs ts =>
    match compileList bs cs with
    | .error e => .error e
    | .ok cms =>
      match compilePairs bs ns ps with
      | .error e => .error e
      | .ok pms => .ok (.comp ts (cms ++ pms))

/-- Compile a list of child structures in order. -/
def compileList (bs : tgBuildSpec) : List tgStructure → Except BuildError (List tgModel)
  | [] => .ok []
  | s :: rest =>
    match compile bs s with
    | .error e => .error e
    | .ok m =>
      match compileList bs rest with
      | .error e => .error e
      | .ok ms => .ok (m :: ms)

end

/-- Modelled from the spec: tgStructureInfo::buildInto hands the fully-formed
model tree to the caller's root model, which adopts the produced children as
its own; a compile error is propagated and the root gains nothing. -/
def buildInto (root : tgModel) (bs : tgBuildSpec) (s : tgStructure) :
    Except BuildError tgModel :=
  match root, compile bs s with
  | _, .error e => .error e
  | .leaf k t a b, .ok m => .ok (.comp [] [.leaf k t a b, m])
  | .comp ts cs, .ok m => .ok (.comp ts (cs ++ [m]))

mutual

/-- The leaf endpoints of a model tree in traversal order. -/
def tgModel.leaves : tgModel → List (Vec3 × Vec3)
  | .leaf _ _ a b => [(a, b)]
  | .comp _ cs => leavesList cs

/-- Leaf endpoints of a list of models. -/
def leavesList : List tgModel → List (Vec3 × Vec3)
  | [] => []
  | m :: rest => m.leaves ++ leavesList rest

end

mutual

/-- All nodes of a model tree in preorder (the tree traversal order used by
tagged lookup). -/
def tgModel.nodesPreorder : tgModel → List tgModel
  | .leaf k t a b => [.leaf k t a b]
  | .comp t cs => .comp t cs :: nodesPreorderList cs

/-- Preorder nodes of a list of models. -/
def nodesPreorderList : List tgModel → List tgModel
  | [] => []
  | m :: rest => m.nodesPreorder ++ nodesPreorderList rest

end

/-- The tags of a model node. -/
def tgModel.mtags : tgModel → List String
  | .leaf _ t _ _ => t
  | .comp t _ => t

/-- Modelled from the spec: the match predicate of tgModel::find — a
descendant matches a query for capability `k` when it is a leaf model of that
kind and every queried tag token is in the node's tag set. -/
def matchPred (k : String) (q : List String) : tgModel → Bool
  | .leaf kind tags _ _ => kind == k && q.all (fun t => tags.contains t)
  | .comp _ _ => false

mutual

/-- Modelled from the spec: tgModel::find with an already-tokenized query —
the ordered sequence of all matching descendant leaf models, in tree
traversal order. -/
def findTokens (k : String) (q : List String) : tgModel → List tgModel
  | .leaf kind tags a b =>
    if matchPred k q (.leaf kind tags a b) then [.leaf kind tags a b] else []
  | .comp _ cs => findTokensList k q cs

/-- Tokenized find over a list of models. -/
def findTokensList (k : String) (q : List String) : List tgModel → List tgModel
  | [] => []
  | m :: rest => findTokens k q m ++ findTokensList k q rest

end

/-- Modelled from the spec: tgModel::find(tagOrPattern) — parse the query
string into space-delimited tokens and collect all matching descendant leaf
models of the requested kind; an empty result is a valid outcome, not an
error. -/
def tgModel.find (m : tgModel) (k : String) (q : String) : List tgModel :=
  findTokens k (parseTags q) m

mutual

/-- Apply a point map to every leaf endpoint of a model tree, leaving kinds,
tags and the tree shape unchanged. -/
def tgModel.mapEndpoints (f : Vec3 → Vec3) : tgModel → tgModel
  | .leaf k t a b => .leaf k t (f a) (f b)
  | .comp t cs => .comp t (mapEndpointsList f cs)

/-- Endpoint mapping over a list of models. -/
def mapEndpointsList (f : Vec3 → Vec3) : List tgModel → List tgModel
  | [] => []
  | m :: rest => m.mapEndpoints f :: mapEndpointsList f rest

end

/-- Translation of a whole model tree by a vector. -/
def tgModel.translate (m : tgModel) (v : Vec3) : tgModel :=
  m.mapEndpoints (fun p => p + v)

/-- The endpoints a pair denotes inside a node list (defaulting out-of-range
indices, which the compiler rejects anyway). -/
def pairEndpoint (ns : List Vec3) (p : tgPair) : Vec3 × Vec3 :=
  (ns.getD p.fst default, ns.getD p.snd default)

mutual

/-- The world-space endpoint pairs a structure's pairs denote, children
first, matching the compiler's traversal order. -/
def tgStructure.pairEndpoints : tgStructure → List (Vec3 × Vec3)
  | .mk ns ps cs _ => pairEndpointsList cs ++ ps.map (pairEndpoint ns)

/-- Endpoint pairs over a list of structures. -/
def pairEndpointsList : List tgStructure → List (Vec3 × Vec3)
  | [] => []
  | c :: rest => c.pairEndpoints ++ pairEndpointsList rest

end

/-- Every pair of the structure tree resolves to some registered builder. -/
def allResolvable (bs : tgBuildSpec) (s : tgStructure) : Bool :=
  s.allPairs.all (fun p => (bs.resolve p.tags).isSome)

/-! Quadruped::getActuators (src/src/dev/rsepesy/Quadruped.cpp, lines
382-394). The actuator map is a std::map from strings to vectors of
tgBasicActuator pointers; actuators are abstracted by identifiers. -/

/-- Quadruped::ActuatorMap — an association list with unique keys (std::map),
mapping a key string to the stored vector of actuator identifiers. -/
abbrev ActuatorMap := List (String × List ℕ)

/-- Quadruped::getActuators(key): looks the key up in the actuator map; if it
is absent, throws std::invalid_argument, otherwise returns the stored vector.
The method is const; the state-passing embedding returns the (unchanged) map
alongside the result. -/
def getActuators (m : ActuatorMap) (key : String) :
    Except String (List ℕ) × ActuatorMap :=
  match m.lookup key with
  | none => (.error ("Key " ++ key ++ " not found in actuator map"), m)
  | some v => (.ok v, m)

/-! NestedStructureSineWaves (src/unnamed/part_000): the controller state and
the operations that touch it. Real-valued members are modelled as rationals;
the values of M_PI/2 (pushed into phaseOffsets) and M_PI, and the sin
function, are abstracted as parameters — the claims about this class concern
vector bounds, not trigonometry. -/

/-- The member state of NestedStructureSineWaves (controllers in_controller /
out_controller act on the strings, not on this state, and are omitted). -/
structure SWState where
  phaseOffsets : List ℚ
  segments : ℚ
  insideLength : ℚ
  outsideLength : ℚ
  offsetSpeed : ℚ
  cpgAmplitude : ℚ
  cpgFrequency : ℚ
  bodyWaves : ℚ
  simTime : ℚ
  cycle : ℚ
  target : ℚ

/-- NestedStructureSineWaves::NestedStructureSineWaves(): member initializers
followed by phaseOffsets.clear(); push_back(M_PI/2); push_back(0);
push_back(0). `piHalf` abstracts the double value M_PI/2. -/
def initSW (piHalf : ℚ) : SWState :=
  { phaseOffsets := [piHalf, 0, 0]
    segments := 1
    insideLength := 20
    outsideLength := 15
    offsetSpeed := 0
    cpgAmplitude := 20
    cpgFrequency := 251 / 100
    bodyWaves := 1
    simTime := 0
    cycle := 0
    target := 0 }

/-- The vector access phaseOffsets[phase] performed inside
applyImpedanceControlOutside, as a checked lookup. -/
def phaseAccess (st : SWState) (phase : ℕ) : Option ℚ :=
  st.phaseOffsets[phase]?

/-- One iteration of the loop body of applyImpedanceControlOutside for string
index i: reads phaseOffsets[phase] and writes the members cycle and target
(the controller call affects only the string, not this state). An
out-of-bounds access is undefined behaviour in C++ and is modelled as leaving
the state unchanged. -/
def outsideIter (sinFn : ℚ → ℚ) (piQ : ℚ) (phase : ℕ) (st : SWState)
    (i : ℕ) : SWState :=
  match phaseAccess st phase with
  | none => st
  | some off =>
    let cyc := sinFn (st.simTime * st.cpgFrequency
      + 2 * st.bodyWaves * piQ * (i : ℚ) / st.segments + off)
    { st with cycle := cyc, target := st.offsetSpeed + cyc * st.cpgAmplitude }

/-- NestedStructureSineWaves::applyImpedanceControlOutside(stringList, dt,
phase): iterates the loop body over all string indices. -/
def applyImpedanceControlOutside (sinFn : ℚ → ℚ) (piQ : ℚ) (st : SWState)
    (stringCount : ℕ) (phase : ℕ) : SWState :=
  (List.range stringCount).foldl (outsideIter sinFn piQ phase) st

/-- NestedStructureSineWaves::applyImpedanceControlInside(stringList, dt):
the loop only calls in_controller->control on each string and writes a local;
no member of the class is modified. -/
def applyImpedanceControlInside (st : SWState) : SWState := st

/-- The per-step inputs of NestedStructureSineWaves::onStep: the subject's
segment count and the sizes of the three muscle lists it returns. -/
structure StepInput where
  segs : ℚ
  nTop : ℕ
  nLeft : ℕ
  nRight : ℕ

/-- NestedStructureSineWaves::onStep(subject, dt): advances simTime, reads
the subject's segment count, applies inside control to three muscle groups,
then outside control with phases 0, 1 and 2. -/
def onStep (sinFn : ℚ → ℚ) (piQ : ℚ) (st : SWState) (a : StepInput)
    (dt : ℚ) : SWState :=
  let st1 := { st with simTime := st.simTime + dt, segments := a.segs }
  let st2 := applyImpedanceControlInside
    (applyImpedanceControlInside (applyImpedanceControlInside st1))
  let st3 := applyImpedanceControlOutside sinFn piQ st2 a.nTop 0
  let st4 := applyImpedanceControlOutside sinFn piQ st3 a.nLeft 1
  applyImpedanceControlOutside sinFn piQ st4 a.nRight 2

/-- Run a sequence of onStep calls from a state (each with its timestep). -/
def runSteps (sinFn : ℚ → ℚ) (piQ : ℚ) (st : SWState) :
    List (StepInput × ℚ) → SWState
  | [] => st
  | a :: rest => runSteps sinFn piQ (onStep sinFn piQ st a.1 a.2) rest

/-! Demonstration inputs used by the witnesses: the example of spec section 8
(nodes (0,0,0) and (0,5,0) connected by a pair tagged "rod", a build spec
registering a rod builder), and small variations. -/

/-- The two-node, one-pair demonstration structure of spec section 8. -/
def demoS : tgStructure := .mk [⟨0, 0, 0⟩, ⟨0, 5, 0⟩] [⟨0, 1, ["rod"]⟩] [] []

/-- A second, separately constructed copy of the demonstration structure,
built through the construction API. -/
def demoScopy : tgStructure :=
  ((tgStructure.mk [] [] [] []).addNode ⟨0, 0, 0⟩).addNode ⟨0, 5, 0⟩
    |>.addPair 0 1 "rod" |>.toOption.getD (.mk [] [] [] [])

/-- A build spec registering a rod builder. -/
def demoSpec : tgBuildSpec := tgBuildSpec.addBuilder ⟨[]⟩ "rod" "tgRod"

/-- A structure whose only pair is tagged "widget", for the missing-builder
scenario. -/
def demoWidget : tgStructure :=
  .mk [⟨0, 0, 0⟩, ⟨0, 5, 0⟩] [⟨0, 1, ["widget"]⟩] [] []

/-- A structure with two distinct node indices at the same position, joined
by a pair tagged "rod": a degenerate (zero-length) pair. -/
def demoDegen : tgStructure :=
  .mk [⟨0, 0, 0⟩, ⟨0, 0, 0⟩] [⟨0, 1, ["rod"]⟩] [] []

/-- A parent structure holding the demonstration structure as a child added
at the local origin. -/
def demoParent : tgStructure := (tgStructure.mk [] [] [] []).addChild demoS

/-- A model tree with one leaf tagged with the set a, b, c, for the find
round-trip scenario. -/
def demoModel : tgModel :=
  .comp ["root"] [.leaf "tgRod" ["a", "b", "c"] ⟨0, 0, 0⟩ ⟨0, 5, 0⟩]

/-!  Helper lemmas. -/

/-- Strong induction over the model tree. -/
def tgModel.strongInd {P : tgModel → Prop}
    (hleaf : ∀ k t a b, P (.leaf k t a b))
    (hcomp : ∀ t cs, (∀ c ∈ cs, P c) → P (.comp t cs)) :
    ∀ m, P m
  | .leaf k t a b => hleaf k t a b
  | .comp t cs => hcomp t cs (fun c hc => tgModel.strongInd hleaf hcomp c)
termination_by m => sizeOf m
decreasing_by
  have h1 : sizeOf c < sizeOf cs := List.sizeOf_lt_of_mem hc
  simp only [tgModel.comp.sizeOf_spec]
  omega

theorem mem_allPairsList {p : tgPair} {cs : List tgStructure} :
    p ∈ allPairsList cs ↔ ∃ c ∈ cs, p ∈ c.allPairs := by
  induction cs with
  | nil => simp [allPairsList]
  | cons c rest ih => simp [allPairsList, ih]

theorem pairsWFList_iff {cs : List tgStructure} :
    pairsWFList cs = true ↔ ∀ c ∈ cs, c.pairsWF = true := by
  induction cs with
  | nil => simp [pairsWFList]
  | cons c rest ih => simp [pairsWFList, ih]

theorem nonDegenerateList_iff {cs : List tgStructure} :
    nonDegenerateList cs = true ↔ ∀ c ∈ cs, c.nonDegenerate = true := by
  induction cs with
  | nil => simp [nonDegenerateList]
  | cons c rest ih => simp [nonDegenerateList, ih]

theorem compileList_error_of_mem {bs : tgBuildSpec} {cs : List tgStructure}
    {c : tgStructure} {e : BuildError} (hc : c ∈ cs)
    (he : compile bs c = .error e) :
    ∃ e2, compileList bs cs = .error e2 := by
  induction cs with
  | nil => cases hc
  | cons c0 rest ih =>
    rcases List.mem_cons.mp hc with h | h
    · subst h
      exact ⟨e, by simp [compileList, he]⟩
    · rcases hcomp : compile bs c0 with e0 | m0
      · exact ⟨e0, by simp [compileList, hcomp]⟩
      · rcases ih h with ⟨e2, h2⟩
        exact ⟨e2, by simp [compileList, hcomp, h2]⟩

theorem compilePairs_error_of_unresolved {bs : tgBuildSpec} {ns : List Vec3}
    {ps : List tgPair} {p : tgPair} (hp : p ∈ ps)
    (hnone : bs.resolve p.tags = none) :
    ∃ e, compilePairs bs ns ps = .error e := by
  induction ps with
  | nil => cases hp
  | cons p0 rest ih =>
    rcases List.mem_cons.mp hp with h | h
    · subst h
      exact ⟨.unregisteredTag p.tags, by simp [compilePairs, hnone]⟩
    · rcases hres : bs.resolve p0.tags with _ | kind
      · exact ⟨.unregisteredTag p0.tags, by simp [compilePairs, hres]⟩
      · rcases ha : ns[p0.fst]? with _ | a
        · exact ⟨.badPairIndex p0.fst p0.snd, by simp [compilePairs, hres, ha]⟩
        · rcases hb : ns[p0.snd]? with _ | b
          · exact ⟨.badPairIndex p0.fst p0.snd, by simp [compilePairs, hres, ha, hb]⟩
          · by_cases hab : a = b
            · exact ⟨.degeneratePair p0.fst p0.snd,
                by simp [compilePairs, hres, ha, hb, hab]⟩
            · rcases ih h with ⟨e, he⟩
              exact ⟨e, by simp [compilePairs, hres, ha, hb, hab, he]⟩

theorem compile_error_of_unresolved {bs : tgBuildSpec} {p : tgPair} :
    ∀ {s : tgStructure}, p ∈ s.allPairs → bs.resolve p.tags = none →
      ∃ e, compile bs s = .error e := by
  have main : ∀ s : tgStructure, p ∈ s.allPairs → bs.resolve p.tags = none →
      ∃ e, compile bs s = .error e := by
    apply tgStructure.strongInd
    intro ns ps cs ts ih hp hnone
    simp only [tgStructure.allPairs, List.mem_append] at hp
    rcases hp with hp | hp
    · rcases mem_allPairsList.mp hp with ⟨c, hc, hpc⟩
      rcases ih c hc hpc hnone with ⟨e, he⟩
      rcases compileList_error_of_mem hc he with ⟨e2, h2⟩
      exact ⟨e2, by simp [compile, h2]⟩
    · rcases hcl : compileList bs cs with e0 | cms
      · exact ⟨e0, by simp [compile, hcl]⟩
      · rcases @compilePairs_error_of_unresolved bs ns ps p hp hnone with ⟨e, he⟩
        exact ⟨e, by simp [compile, hcl, he]⟩
  exact fun {s} => main s

theorem leavesList_append (l1 l2 : List tgModel) :
    leavesList (l1 ++ l2) = leavesList l1 ++ leavesList l2 := by
  induction l1 with
  | nil => simp [leavesList]
  | cons m rest ih => simp [leavesList, ih, List.append_assoc]

theorem compilePairs_ok_of_wf {bs : tgBuildSpec} {ns : List Vec3}
    {ps : List tgPair}
    (hwf : ∀ p ∈ ps, p.fst < ns.length ∧ p.snd < ns.length ∧
      (bs.resolve p.tags).isSome = true ∧
      ns.getD p.fst default ≠ ns.getD p.snd default) :
    ∃ ms, compilePairs bs ns ps = .ok ms ∧
      leavesList ms = ps.map (pairEndpoint ns) := by
  induction ps with
  | nil => exact ⟨[], by simp [compilePairs, leavesList]⟩
  | cons p rest ih =>
    obtain ⟨h1, h2, h3, h4⟩ := hwf p (List.mem_cons_self p rest)
    rcases Option.isSome_iff_exists.mp h3 with ⟨kind, hkind⟩
    have ha : ns[p.fst]? = some (ns.getD p.fst default) := by
      rw [List.getElem?_eq_getElem h1, List.getD_eq_getElem ns default h1]
    have hb : ns[p.snd]? = some (ns.getD p.snd default) := by
      rw [List.getElem?_eq_getElem h2, List.getD_eq_getElem ns default h2]
    rcases ih (fun q hq => hwf q (List.mem_cons_of_mem p hq)) with ⟨ms, hms, hlv⟩
    refine ⟨tgModel.leaf kind p.tags (ns.getD p.fst default)
      (ns.getD p.snd default) :: ms, ?_, ?_⟩
    · simp only [compilePairs, hkind, ha, hb, if_neg h4, hms]
    · simp [leavesList, tgModel.leaves, hlv, pairEndpoint]

theorem compileList_ok_of_all {bs : tgBuildSpec} {cs : List tgStructure}
    (hall : ∀ c ∈ cs, ∃ m, compile bs c = .ok m ∧
      m.leaves = c.pairEndpoints) :
    ∃ ms, compileList bs cs = .ok ms ∧ leavesList ms = pairEndpointsList cs := by
  induction cs with
  | nil => exact ⟨[], by simp [compileList, leavesList, pairEndpointsList]⟩
  | cons c rest ih =>
    rcases hall c (List.mem_cons_self c rest) with ⟨m, hm, hlv⟩
    rcases ih (fun c2 h2 => hall c2 (List.mem_cons_of_mem c h2)) with ⟨ms, hms, hlvs⟩
    exact ⟨m :: ms, by simp [compileList, hm, hms],
      by simp [leavesList, hlv, hlvs, pairEndpointsList]⟩

theorem compile_ok_of_wf {bs : tgBuildSpec} :
    ∀ {s : tgStructure}, s.pairsWF = true → s.nonDegenerate = true →
      allResolvable bs s = true →
      ∃ m, compile bs s = .ok m ∧ m.leaves = s.pairEndpoints := by
  have main : ∀ s : tgStructure, s.pairsWF = true → s.nonDegenerate = true →
      allResolvable bs s = true →
      ∃ m, compile bs s = .ok m ∧ m.leaves = s.pairEndpoints := by
    apply tgStructure.strongInd
    intro ns ps cs ts ih hwf hdeg hres
    simp only [tgStructure.pairsWF, Bool.and_eq_true, List.all_eq_true,
      Bool.and_eq_true, decide_eq_true_eq] at hwf
    obtain ⟨hown, hlist⟩ := hwf
    simp only [tgStructure.nonDegenerate, Bool.and_eq_true, List.all_eq_true,
      decide_eq_true_eq] at hdeg
    obtain ⟨hdown, hdlist⟩ := hdeg
    have hresp : ∀ p ∈ allPairsList cs ++ ps, (bs.resolve p.tags).isSome = true := by
      intro p hp
      have := (List.all_eq_true).mp hres p
      exact this hp
    rcases compileList_ok_of_all (fun c hc =>
      ih c hc (pairsWFList_iff.mp hlist c hc)
        (nonDegenerateList_iff.mp hdlist c hc)
        (List.all_eq_true.mpr (fun p hp =>
          hresp p (List.mem_append_left _ (mem_allPairsList.mpr ⟨c, hc, hp⟩)))))
      with ⟨cms, hcms, hlvc⟩
    rcases @compilePairs_ok_of_wf bs ns ps
      (fun p hp => ⟨(hown p hp).1, (hown p hp).2,
        hresp p (List.mem_append_right _ hp), hdown p hp⟩) with ⟨pms, hpms, hlvp⟩
    refine ⟨.comp ts (cms ++ pms), by simp [compile, hcms, hpms], ?_⟩
    simp [tgModel.leaves, leavesList_append, hlvc, hlvp, tgStructure.pairEndpoints]
  exact fun {s} => main s

theorem applyTransform_skeleton (f : Vec3 → Vec3) :
    ∀ s : tgStructure, (s.applyTransform f).skeleton = s.skeleton := by
  apply tgStructure.strongInd
  intro ns ps cs ts ih
  have hlist : skeletonList (applyTransformList f cs) = skeletonList cs := by
    induction cs with
    | nil => simp [applyTransformList]
    | cons c rest ih2 =>
      simp only [applyTransformList, skeletonList]
      rw [ih c (List.mem_cons_self c rest),
        ih2 (fun c2 h2 => ih c2 (List.mem_cons_of_mem c h2))]
  simp [tgStructure.applyTransform, tgStructure.skeleton, hlist]

theorem applyTransform_allNodes (f : Vec3 → Vec3) :
    ∀ s : tgStructure, (s.applyTransform f).allNodes = s.allNodes.map f := by
  apply tgStructure.strongInd
  intro ns ps cs ts ih
  have hlist : allNodesList (applyTransformList f cs) = (allNodesList cs).map f := by
    induction cs with
    | nil => simp [applyTransformList, allNodesList]
    | cons c rest ih2 =>
      simp only [applyTransformList, allNodesList, List.map_append]
      rw [ih c (List.mem_cons_self c rest),
        ih2 (fun c2 h2 => ih c2 (List.mem_cons_of_mem c h2))]
  simp [tgStructure.applyTransform, tgStructure.allNodes, hlist]

theorem vadd_right_injective (v : Vec3) :
    ∀ x y : Vec3, x + v = y + v → x = y := by
  rintro ⟨x1, x2, x3⟩ ⟨y1, y2, y3⟩ h
  have hx : x1 + v.x = y1 + v.x := congrArg Vec3.x h
  have hy : x2 + v.y = y2 + v.y := congrArg Vec3.y h
  have hz : x3 + v.z = y3 + v.z := congrArg Vec3.z h
  simp only [Vec3.mk.injEq]
  exact ⟨add_right_cancel hx, add_right_cancel hy, add_right_cancel hz⟩

theorem emap_error {α β : Type} (g : α → β) (e : BuildError) :
    (Except.error e : Except BuildError α).map g = .error e := rfl

theorem emap_ok {α β : Type} (g : α → β) (a : α) :
    (Except.ok a : Except BuildError α).map g = .ok (g a) := rfl

theorem mapEndpointsList_append (f : Vec3 → Vec3) (l1 l2 : List tgModel) :
    mapEndpointsList f (l1 ++ l2) =
      mapEndpointsList f l1 ++ mapEndpointsList f l2 := by
  induction l1 with
  | nil => simp [mapEndpointsList]
  | cons m rest ih => simp [mapEndpointsList, ih]

theorem compilePairs_mapNodes (bs : tgBuildSpec) (f : Vec3 → Vec3)
    (hinj : ∀ x y, f x = f y → x = y) (ns : List Vec3) (ps : List tgPair) :
    compilePairs bs (ns.map f) ps =
      (compilePairs bs ns ps).map (mapEndpointsList f) := by
  induction ps with
  | nil => simp [compilePairs, mapEndpointsList, emap_ok]
  | cons p rest ih =>
    rcases hres : bs.resolve p.tags with _ | kind
    · simp only [compilePairs, hres, emap_error]
    · rcases ha : ns[p.fst]? with _ | a
      · have ha2 : (ns.map f)[p.fst]? = none := by
          simp [List.getElem?_map, ha]
        simp only [compilePairs, hres, ha, ha2, emap_error]
      · have ha2 : (ns.map f)[p.fst]? = some (f a) := by
          simp [List.getElem?_map, ha]
        rcases hb : ns[p.snd]? with _ | b
        · have hb2 : (ns.map f)[p.snd]? = none := by
            simp [List.getElem?_map, hb]
          simp only [compilePairs, hres, ha, ha2, hb, hb2, emap_error]
        · have hb2 : (ns.map f)[p.snd]? = some (f b) := by
            simp [List.getElem?_map, hb]
          by_cases hab : a = b
          · have hfab : f a = f b := by rw [hab]
            simp only [compilePairs, hres, ha, ha2, hb, hb2, if_pos hab,
              if_pos hfab, emap_error]
          · have hfab : ¬ f a = f b := fun h => hab (hinj a b h)
            rcases hrest : compilePairs bs ns rest with e | ms
            · simp only [compilePairs, hres, ha, ha2, hb, hb2, if_neg hab,
                if_neg hfab, hrest, emap_error] at ih ⊢
              simp [ih]
            · simp only [compilePairs, hres, ha, ha2, hb, hb2, if_neg hab,
                if_neg hfab, hrest, emap_ok] at ih ⊢
              simp only [ih, mapEndpointsList, tgModel.mapEndpoints]

theorem compile_applyTransform (bs : tgBuildSpec) (f : Vec3 → Vec3)
    (hinj : ∀ x y, f x = f y → x = y) :
    ∀ s : tgStructure, compile bs (s.applyTransform f) =
      (compile bs s).map (tgModel.mapEndpoints f) := by
  apply tgStructure.strongInd
  intro ns ps cs ts ih
  have hlist : compileList bs (applyTransformList f cs) =
      (compileList bs cs).map (mapEndpointsList f) := by
    induction cs with
    | nil => simp [applyTransformList, compileList, mapEndpointsList, emap_ok]
    | cons c rest ih2 =>
      have hc := ih c (List.mem_cons_self c rest)
      have hr := ih2 (fun c2 h2 => ih c2 (List.mem_cons_of_mem c h2))
      rcases hcc : compile bs c with e | m
      · rw [hcc, emap_error] at hc
        simp only [applyTransformList, compileList, hc, hcc, emap_error]
      · rw [hcc, emap_ok] at hc
        rcases hcr : compileList bs rest with e2 | ms
        · rw [hcr, emap_error] at hr
          simp only [applyTransformList, compileList, hc, hcc, hr, hcr,
            emap_error]
        · rw [hcr, emap_ok] at hr
          simp only [applyTransformList, compileList, hc, hcc, hr, hcr,
            emap_ok, mapEndpointsList]
  rcases hcl : compileList bs cs with e | cms
  · rw [hcl, emap_error] at hlist
    simp only [tgStructure.applyTransform, compile, hlist, hcl, emap_error]
  · rw [hcl, emap_ok] at hlist
    rcases hcp : compilePairs bs ns ps with e | pms
    · have hmp := compilePairs_mapNodes bs f hinj ns ps
      rw [hcp, emap_error] at hmp
      simp only [tgStructure.applyTransform, compile, hlist, hcl, hcp, hmp,
        emap_error]
    · have hmp := compilePairs_mapNodes bs f hinj ns ps
      rw [hcp, emap_ok] at hmp
      simp only [tgStructure.applyTransform, compile, hlist, hcl, hcp, hmp,
        emap_ok, tgModel.mapEndpoints, mapEndpointsList_append]

theorem leaves_mapEndpoints (f : Vec3 → Vec3) :
    ∀ m : tgModel, (m.mapEndpoints f).leaves =
      m.leaves.map (fun pr => (f pr.1, f pr.2)) := by
  apply tgModel.strongInd
  · intro k t a b
    simp [tgModel.mapEndpoints, tgModel.leaves]
  · intro t cs ih
    have hlist : leavesList (mapEndpointsList f cs) =
        (leavesList cs).map (fun pr => (f pr.1, f pr.2)) := by
      induction cs with
      | nil => simp [mapEndpointsList, leavesList]
      | cons m rest ih2 =>
        simp only [mapEndpointsList, leavesList, List.map_append]
        rw [ih m (List.mem_cons_self m rest),
          ih2 (fun m2 h2 => ih m2 (List.mem_cons_of_mem m h2))]
    simp [tgModel.mapEndpoints, tgModel.leaves, hlist]

theorem findTokens_eq_filter (k : String) (q : List String) :
    ∀ m : tgModel, findTokens k q m = (m.nodesPreorder).filter (matchPred k q) := by
  apply tgModel.strongInd
  · intro k2 t a b
    simp only [findTokens, tgModel.nodesPreorder, List.filter]
    rcases h : matchPred k q (.leaf k2 t a b) with _ | _ <;> simp [h]
  · intro t cs ih
    have hlist : findTokensList k q cs =
        (nodesPreorderList cs).filter (matchPred k q) := by
      induction cs with
      | nil => simp [findTokensList, nodesPreorderList]
      | cons m rest ih2 =>
        simp only [findTokensList, nodesPreorderList, List.filter_append]
        rw [ih m (List.mem_cons_self m rest),
          ih2 (fun m2 h2 => ih m2 (List.mem_cons_of_mem m h2))]
    simp only [findTokens, tgModel.nodesPreorder, hlist, List.filter]
    rcases h : matchPred k q (.comp t cs) with _ | _
    · rfl
    · simp [matchPred] at h

theorem pairEndpoints_length :
    ∀ s : tgStructure, s.pairEndpoints.length = s.allPairs.length := by
  apply tgStructure.strongInd
  intro ns ps cs ts ih
  have hlist : (pairEndpointsList cs).length = (allPairsList cs).length := by
    induction cs with
    | nil => simp [pairEndpointsList, allPairsList]
    | cons c rest ih2 =>
      simp only [pairEndpointsList, allPairsList, List.length_append]
      rw [ih c (List.mem_cons_self c rest),
        ih2 (fun c2 h2 => ih c2 (List.mem_cons_of_mem c h2))]
  simp [tgStructure.pairEndpoints, tgStructure.allPairs, hlist]

theorem outsideIter_phaseOffsets (sinFn : ℚ → ℚ) (piQ : ℚ) (phase : ℕ)
    (st : SWState) (i : ℕ) :
    (outsideIter sinFn piQ phase st i).phaseOffsets = st.phaseOffsets := by
  rcases h : phaseAccess st phase with _ | off <;> simp [outsideIter, h]

theorem applyOutside_phaseOffsets (sinFn : ℚ → ℚ) (piQ : ℚ) (st : SWState)
    (n : ℕ) (phase : ℕ) :
    (applyImpedanceControlOutside sinFn piQ st n phase).phaseOffsets =
      st.phaseOffsets := by
  rw [applyImpedanceControlOutside]
  generalize List.range n = l
  induction l generalizing st with
  | nil => rfl
  | cons i rest ih =>
    rw [List.foldl_cons, ih, outsideIter_phaseOffsets]

theorem onStep_phaseOffsets (sinFn : ℚ → ℚ) (piQ : ℚ) (st : SWState)
    (a : StepInput) (dt : ℚ) :
    (onStep sinFn piQ st a dt).phaseOffsets = st.phaseOffsets := by
  rw [onStep]
  simp only [applyOutside_phaseOffsets, applyImpedanceControlInside]

theorem runSteps_phaseOffsets (sinFn : ℚ → ℚ) (piQ : ℚ) :
    ∀ (steps : List (StepInput × ℚ)) (st : SWState),
      (runSteps sinFn piQ st steps).phaseOffsets = st.phaseOffsets := by
  intro steps
  induction steps with
  | nil => intro st; rfl
  | cons a rest ih =>
    intro st
    rw [runSteps, ih, onStep_phaseOffsets]

/-! The claims. -/

/-- C1 counterexample: a structure whose two nodes coincide, joined by a
pair tagged rod, compiled against a build spec that registers a builder for
every tag used. Its pairs are index-well-formed and every tag resolves, yet
compilation fails with the degenerate-pair geometry error (spec sections 4.3
and 7(b)) instead of producing one leaf model per pair. -/
theorem claim1_compile_leaf_models_counterexample :
    demoDegen.pairsWF = true ∧ allResolvable demoSpec demoDegen = true ∧
      compile demoSpec demoDegen = .error (.degeneratePair 0 1) ∧
      ∀ m, compile demoSpec demoDegen ≠ .ok m := by
  refine ⟨rfl, rfl, rfl, ?_⟩
  intro m hm
  rw [show compile demoSpec demoDegen = .error (.degeneratePair 0 1) from rfl]
    at hm
  cases hm

/-- C1 (amended): for every structure whose pairs all reference in-range
nodes and are non-degenerate (no pair's two endpoint positions coincide),
and every build spec registering a builder for every tag used by those
pairs, compiling the structure succeeds and produces exactly one leaf model
per pair — M leaves for M pairs — and each leaf's endpoint positions are the
pair's two node positions (node coordinates already carry the composition of
all ancestor move/addRotation transforms, which are applied eagerly). -/
theorem claim1_compile_leaf_models (bs : tgBuildSpec) (s : tgStructure)
    (hwf : s.pairsWF = true) (hdeg : s.nonDegenerate = true)
    (hres : allResolvable bs s = true) :
    ∃ m, compile bs s = .ok m ∧ m.leaves = s.pairEndpoints ∧
      m.leaves.length = s.allPairs.length := by
  rcases compile_ok_of_wf hwf hdeg hres with ⟨m, hm, hlv⟩
  exact ⟨m, hm, hlv, by rw [hlv, pairEndpoints_length]⟩

/-- Witness for C1: the spec section 8 example — nodes (0,0,0) and (0,5,0)
joined by a pair tagged rod, compiled against a spec registering a rod
builder. -/
theorem claim1_compile_leaf_models_witness :
    ∃ m, compile demoSpec demoS = .ok m ∧ m.leaves = demoS.pairEndpoints ∧
      m.leaves.length = demoS.allPairs.length :=
  claim1_compile_leaf_models demoSpec demoS (by decide) (by decide) (by decide)

/-- C2: if any pair of the structure tree has a tag set that resolves to no
registered builder, compilation fails with a configuration error, buildInto
propagates the failure to the caller, and no model tree at all is returned
(the caller's root model gains no children). -/
theorem claim2_missing_builder (bs : tgBuildSpec) (s : tgStructure)
    (root : tgModel) (p : tgPair) (hp : p ∈ s.allPairs)
    (hnone : bs.resolve p.tags = none) :
    (∃ e, compile bs s = .error e) ∧ (∃ e, buildInto root bs s = .error e) ∧
      ∀ m, buildInto root bs s ≠ .ok m := by
  rcases compile_error_of_unresolved hp hnone with ⟨e, he⟩
  refine ⟨⟨e, he⟩, ⟨e, ?_⟩, ?_⟩
  · cases root <;> simp [buildInto, he]
  · intro m hm
    cases root <;> simp [buildInto, he] at hm

/-- Witness for C2: a pair tagged widget compiled against a spec that only
registers a rod builder. -/
theorem claim2_missing_builder_witness :
    (∃ e, compile demoSpec demoWidget = .error e) ∧
    (∃ e, buildInto (.comp [] []) demoSpec demoWidget = .error e) ∧
      ∀ m, buildInto (.comp [] []) demoSpec demoWidget ≠ .ok m :=
  claim2_missing_builder demoSpec demoWidget (.comp [] []) ⟨0, 1, ["widget"]⟩
    (by decide) (by decide)

/-- C3: moving a structure by V before compilation shifts every compiled
endpoint by exactly V: compiling the moved structure (parent transforms
recurse into all descendants, including children added at the local origin)
yields the translated model tree, and translating a model tree shifts each
leaf's two endpoints by V. -/
theorem claim3_move_composes (bs : tgBuildSpec) (v : Vec3) (s : tgStructure) :
    compile bs (s.move v) = (compile bs s).map (fun m => m.translate v) ∧
      ∀ m : tgModel, (m.translate v).leaves =
        m.leaves.map (fun pr => (pr.1 + v, pr.2 + v)) := by
  exact ⟨compile_applyTransform bs (fun p => p + v) (vadd_right_injective v) s,
    fun m => leaves_mapEndpoints (fun p => p + v) m⟩

/-- C4: a model node carrying the tag set a, b, c that occurs in a model tree
is returned by find(a), find(b) and find(a b), is not returned by find(d) for
a tag d outside the set, and every find result is a subsequence of the
preorder traversal (matches appear in tree traversal order). -/
theorem claim4_find_roundtrip (m l : tgModel) (k a b c d : String)
    (e1 e2 : Vec3) (hl : l = tgModel.leaf k [a, b, c] e1 e2)
    (hmem : l ∈ m.nodesPreorder)
    (hpa : parseTags a = [a]) (hpb : parseTags b = [b])
    (hpab : parseTags (a ++ " " ++ b) = [a, b]) (hpd : parseTags d = [d])
    (hd : d ≠ a ∧ d ≠ b ∧ d ≠ c) :
    l ∈ m.find k a ∧ l ∈ m.find k b ∧ l ∈ m.find k (a ++ " " ++ b) ∧
      l ∉ m.find k d ∧
      ∀ q, List.Sublist (m.find k q) m.nodesPreorder := by
  have hfind : ∀ q : List String, findTokens k q m =
      (m.nodesPreorder).filter (matchPred k q) := fun q =>
    findTokens_eq_filter k q m
  refine ⟨?_, ?_, ?_, ?_, ?_⟩
  · rw [tgModel.find, hpa, hfind, List.mem_filter]
    exact ⟨hmem, by simp [hl, matchPred]⟩
  · rw [tgModel.find, hpb, hfind, List.mem_filter]
    exact ⟨hmem, by simp [hl, matchPred]⟩
  · rw [tgModel.find, hpab, hfind, List.mem_filter]
    exact ⟨hmem, by simp [hl, matchPred]⟩
  · rw [tgModel.find, hpd, hfind, List.mem_filter]
    rintro ⟨-, hmatch⟩
    rw [hl] at hmatch
    simp [matchPred] at hmatch
    rcases hmatch with h | h | h <;>
      [exact hd.1 h; exact hd.2.1 h; exact hd.2.2 h]
  · intro q
    rw [tgModel.find, hfind]
    exact List.filter_sublist _

/-- Witness for C4: the demonstration model with one leaf tagged a, b, c and
the probe tag d. -/
theorem claim4_find_roundtrip_witness :
    tgModel.leaf "tgRod" ["a", "b", "c"] ⟨0, 0, 0⟩ ⟨0, 5, 0⟩ ∈
        demoModel.find "tgRod" "a" ∧
      tgModel.leaf "tgRod" ["a", "b", "c"] ⟨0, 0, 0⟩ ⟨0, 5, 0⟩ ∈
        demoModel.find "tgRod" "b" ∧
      tgModel.leaf "tgRod" ["a", "b", "c"] ⟨0, 0, 0⟩ ⟨0, 5, 0⟩ ∈
        demoModel.find "tgRod" ("a" ++ " " ++ "b") ∧
      tgModel.leaf "tgRod" ["a", "b", "c"] ⟨0, 0, 0⟩ ⟨0, 5, 0⟩ ∉
        demoModel.find "tgRod" "d" ∧
      ∀ q, List.Sublist (demoModel.find "tgRod" q) demoModel.nodesPreorder :=
  claim4_find_roundtrip demoModel _ "tgRod" "a" "b" "c" "d" ⟨0, 0, 0⟩ ⟨0, 5, 0⟩
    rfl (by simp [demoModel, tgModel.nodesPreorder, nodesPreorderList])
    rfl rfl rfl rfl (by simp)

/-- C5: compilation is deterministic — compiling two equal copies of a
structure against the same build spec yields structurally identical model
trees: the same tree, hence the same leaf endpoint coordinates, the same leaf
count and the same tags. -/
theorem claim5_compile_deterministic (bs : tgBuildSpec) (s1 s2 : tgStructure)
    (m1 m2 : tgModel) (hs : s1 = s2) (h1 : compile bs s1 = .ok m1)
    (h2 : compile bs s2 = .ok m2) :
    m1 = m2 ∧ m1.leaves = m2.leaves ∧
      m1.leaves.length = m2.leaves.length ∧ m1.mtags = m2.mtags := by
  subst hs
  rw [h1] at h2
  cases h2
  exact ⟨rfl, rfl, rfl, rfl⟩

/-- Witness for C5: the demonstration structure and a second copy of it built
independently through the construction API compile to identical models. -/
theorem claim5_compile_deterministic_witness :
    tgModel.comp [] [.leaf "tgRod" ["rod"] ⟨0, 0, 0⟩ ⟨0, 5, 0⟩] =
        tgModel.comp [] [.leaf "tgRod" ["rod"] ⟨0, 0, 0⟩ ⟨0, 5, 0⟩] ∧
      (tgModel.comp [] [.leaf "tgRod" ["rod"] ⟨0, 0, 0⟩ ⟨0, 5, 0⟩]).leaves =
        (tgModel.comp [] [.leaf "tgRod" ["rod"] ⟨0, 0, 0⟩ ⟨0, 5, 0⟩]).leaves ∧
      (tgModel.comp [] [.leaf "tgRod" ["rod"] ⟨0, 0, 0⟩ ⟨0, 5, 0⟩]).leaves.length =
        (tgModel.comp [] [.leaf "tgRod" ["rod"] ⟨0, 0, 0⟩ ⟨0, 5, 0⟩]).leaves.length ∧
      (tgModel.comp [] [.leaf "tgRod" ["rod"] ⟨0, 0, 0⟩ ⟨0, 5, 0⟩]).mtags =
        (tgModel.comp [] [.leaf "tgRod" ["rod"] ⟨0, 0, 0⟩ ⟨0, 5, 0⟩]).mtags :=
  claim5_compile_deterministic demoSpec demoS demoScopy _ _ rfl rfl rfl

/-- C6: addPair(i, j, tagString) fails exactly when i equals j or i or j is
out of the node-index range; on success it stores one new pair whose tag set
is the space-delimited tokens of the tag string, changes nothing else, and
preserves the invariant that every stored pair references node indices that
exist in the same structure. -/
theorem claim6_addPair_validates (s : tgStructure) (i j : ℕ) (ts : String) :
    ((∃ s2, s.addPair i j ts = .ok s2) ↔
      i ≠ j ∧ i < s.nodes.length ∧ j < s.nodes.length) ∧
    ∀ s2, s.addPair i j ts = .ok s2 →
      s2.pairs = s.pairs ++ [⟨i, j, parseTags ts⟩] ∧ s2.nodes = s.nodes ∧
        s2.children = s.children ∧ s2.tags = s.tags ∧
        (s.pairsWF = true → s2.pairsWF = true) := by
  rcases s with ⟨ns, ps, cs, tg⟩
  constructor
  · constructor
    · rintro ⟨s2, h2⟩
      by_cases hij : i = j
      · simp [tgStructure.addPair, hij] at h2
      · by_cases hrange : i < ns.length ∧ j < ns.length
        · exact ⟨hij, by simpa [tgStructure.nodes] using hrange⟩
        · simp [tgStructure.addPair, hij, tgStructure.nodes, hrange] at h2
    · rintro ⟨hij, hi, hj⟩
      simp only [tgStructure.nodes] at hi hj
      exact ⟨.mk ns (ps ++ [⟨i, j, parseTags ts⟩]) cs tg,
        by simp [tgStructure.addPair, hij, tgStructure.nodes,
          tgStructure.pairs, tgStructure.children, tgStructure.tags, hi, hj]⟩
  · intro s2 h2
    by_cases hij : i = j
    · simp [tgStructure.addPair, hij] at h2
    · by_cases hrange : i < ns.length ∧ j < ns.length
      · simp only [tgStructure.addPair, hij, if_false, tgStructure.nodes,
          tgStructure.pairs, tgStructure.children, tgStructure.tags, hrange,
          if_true] at h2
        cases h2
        refine ⟨rfl, rfl, rfl, rfl, ?_⟩
        intro hwf
        simp only [tgStructure.pairsWF, Bool.and_eq_true, List.all_eq_true] at hwf ⊢
        refine ⟨?_, hwf.2⟩
        intro p hp
        rcases List.mem_append.mp hp with h | h
        · exact hwf.1 p h
        · simp only [List.mem_singleton] at h
          subst h
          simp [hrange.1, hrange.2]
      · simp [tgStructure.addPair, hij, tgStructure.nodes, hrange] at h2

/-- Witness for C6: adding the pair (0, 1) tagged rod to the two-node
demonstration structure succeeds and stores the parsed pair. -/
theorem claim6_addPair_validates_witness :
    (0 : ℕ) ≠ 1 ∧ 0 < demoS.nodes.length ∧ 1 < demoS.nodes.length :=
  (claim6_addPair_validates demoS 0 1 "rod").1.mp
    ⟨.mk [⟨0, 0, 0⟩, ⟨0, 5, 0⟩] [⟨0, 1, ["rod"]⟩, ⟨0, 1, ["rod"]⟩] [] [], rfl⟩

/-- C7: move and addRotation apply the respective affine point map to every
node of the structure and, recursively, of all descendant structures, and
change nothing else: the skeleton — node count, pairs with their endpoint
indices, all tag sets and the child-structure tree — is unchanged. -/
theorem claim7_transforms_preserve_topology (s : tgStructure) (v ctr : Vec3)
    (r : Mat3) :
    (s.move v).skeleton = s.skeleton ∧
      (s.move v).allNodes = s.allNodes.map (fun p => p + v) ∧
      (s.addRotation ctr r).skeleton = s.skeleton ∧
      (s.addRotation ctr r).allNodes = s.allNodes.map (rotAboutPoint ctr r) :=
  ⟨applyTransform_skeleton _ s, applyTransform_allNodes _ s,
    applyTransform_skeleton _ s, applyTransform_allNodes _ s⟩

/-- C8: find is total — it returns an empty sequence, rather than failing,
exactly when no node of the model tree is a leaf of the requested kind with a
matching tag set; zero matches is a representable, valid result. -/
theorem claim8_find_empty_ok (m : tgModel) (k q : String) :
    m.find k q = [] ↔
      ∀ l ∈ m.nodesPreorder, matchPred k (parseTags q) l = false := by
  rw [tgModel.find, findTokens_eq_filter, List.filter_eq_nil_iff]
  constructor
  · intro h l hl
    exact Bool.not_eq_true _ ▸ (h l hl)
  · intro h l hl
    rw [h l hl]
    exact Bool.false_ne_true

/-- C9: Quadruped::getActuators(key) throws std::invalid_argument exactly
when the key is absent from the actuator map; when the key is present it
returns the vector stored under it; and the map is unchanged in both cases. -/
theorem claim9_getActuators_spec (m : ActuatorMap) (key : String) :
    (m.lookup key = none → (getActuators m key).1 =
      .error ("Key " ++ key ++ " not found in actuator map")) ∧
    (∀ v, m.lookup key = some v → (getActuators m key).1 = .ok v) ∧
    (getActuators m key).2 = m := by
  rcases h : m.lookup key with _ | v <;> simp [getActuators, h]

/-- C10: starting from the constructor state (whose phaseOffsets has exactly
three elements) and after any sequence of onStep calls (no operation removes
elements), phaseOffsets still has exactly three elements, so the access
phaseOffsets[phase] made by applyImpedanceControlOutside is in bounds for
every phase in 0, 1, 2 — the only phases onStep passes. -/
theorem claim10_phaseOffsets_inbounds (sinFn : ℚ → ℚ) (piQ piHalf : ℚ)
    (steps : List (StepInput × ℚ)) (phase : ℕ) (hphase : phase < 3) :
    (runSteps sinFn piQ (initSW piHalf) steps).phaseOffsets.length = 3 ∧
      (phaseAccess (runSteps sinFn piQ (initSW piHalf) steps) phase).isSome
        = true := by
  have hlen : (runSteps sinFn piQ (initSW piHalf) steps).phaseOffsets =
      [piHalf, 0, 0] := by
    rw [runSteps_phaseOffsets]
    rfl
  refine ⟨by rw [hlen]; rfl, ?_⟩
  rw [phaseAccess, hlen]
  have h3 : phase < ([piHalf, 0, 0] : List ℚ).length := by
    simpa using hphase
  simp [List.getElem?_eq_getElem h3]

/-- Witness for C10: one onStep call with unit inputs, phase 2. -/
theorem claim10_phaseOffsets_inbounds_witness :
    (runSteps (fun q => q) 3 (initSW 2) [(⟨1, 1, 1, 1⟩, 1)]).phaseOffsets.length
        = 3 ∧
      (phaseAccess (runSteps (fun q => q) 3 (initSW 2) [(⟨1, 1, 1, 1⟩, 1)]) 2).isSome
        = true :=
  claim10_phaseOffsets_inbounds (fun q => q) 3 2 [(⟨1, 1, 1, 1⟩, 1)] 2
    (by decide)

end NTRT
